import Mathlib

/-
  Verification development for the lysShub/sockit repository: a raw-socket
  TCP interception layer (local port guard, kernel packet-filter compiler,
  connection registry with retransmission-safe identity tracking, IP header
  stamping, and an embedded TCP engine hosted on gVisor).

  The definitions below are shallow embeddings of the Go source:
  - src/conn/tcp/tcp_linux.go   (package eth: Listener / Conn, keyed by full ID)
  - src/conn/tcp/eth_linux.go   (package tcp: listenerEth / ConnEth, keyed by remote)
  - src/unnamed/part_000        (conn.ListenLocal)
  - src/internal/bpf/bpf.go     (classic-BPF filter programs)
  - src/stack/stack.go          (TCPStackGvisor embedded engine)
  - src/ipstack_test.go         (test of the ipstack engine; the engine itself
                                 is not under src and is modelled from the spec)
  Machine integers are modelled as Nat; Go map/slice state is explicit; Go
  panics are modelled as Option.none results.
-/

namespace Sockit

/-- An address/port pair (netip.AddrPort); the address is abstracted to a Nat. -/
structure AddrPort where
  addr : Nat
  port : Nat
deriving DecidableEq, Repr

/-- The fields Accept extracts from a captured SYN packet: remote
address/port (from the IP source address and TCP source port) and the TCP
sequence number (the ISN). -/
structure SynPkt where
  raddr : AddrPort
  isn : Nat
deriving DecidableEq, Repr

/-- Result of parsing the IP version of a captured packet, as in the
`switch header.IPVersion(ip)` in both Accept loops: version 4, version 6
(both yield remote and ISN via the gvisor header accessors), or any other
version (the `default: continue` branch). -/
inductive ParseKind where
  | v4 (p : SynPkt)
  | v6 (p : SynPkt)
  | other
deriving DecidableEq, Repr

/-- One raw-socket read observed by an Accept loop: `n` is the byte count
returned by `l.raw.Read`, `t` the wall-clock second of the read (used by the
lazy prune), and `parse` the version dispatch on the bytes. -/
structure RawRead where
  n : Nat
  t : Nat
  parse : ParseKind
deriving DecidableEq, Repr

/-- Modelled from the spec: the minimum valid IP-plus-TCP header size used by
the Accept size check (`itcp.SizeRange` / `tcpSynSizeRange` are not under
src/). IPv4: 20-byte IP header + 20-byte TCP header; IPv6: 40 + 20. -/
def minSize (is4 : Bool) : Nat :=
  if is4 then 40 else 60

/-- Connection identity of the identity-keyed registry (itcp.ID in
src/conn/tcp/tcp_linux.go): local 2-tuple, remote 2-tuple, and the ISN. -/
structure ID where
  local_ : AddrPort
  remote : AddrPort
  isn : Nat
deriving DecidableEq, Repr

/-- Result of one call of an Accept loop. `accepted` returns the new flow's
identity, the updated live set and the unread remainder of the stream;
`error` is the `recved invalid ip packet` return; `blocked` models a read
that never returns (no more packets in the stream). -/
inductive AcceptRes where
  | accepted (id : ID) (conns : List ID) (rest : List RawRead)
  | error (n : Nat) (rest : List RawRead)
  | blocked
deriving DecidableEq, Repr

/-- Listener.Accept of src/conn/tcp/tcp_linux.go (identity-keyed registry):
read one packet; if its size is below the minimum, return an error; parse the
version (continue on unknown versions); build the identity; if it is already
live, discard and loop; otherwise mark it live and return the new flow. -/
def sockitAccept (is4 : Bool) (laddr : AddrPort) (conns : List ID) :
    List RawRead → AcceptRes
  | [] => .blocked
  | r :: rest =>
    if r.n < minSize is4 then
      .error r.n rest
    else
      match r.parse with
      | .other => sockitAccept is4 laddr conns rest
      | .v4 p =>
        let id : ID := ⟨laddr, p.raddr, p.isn⟩
        if id ∈ conns then sockitAccept is4 laddr conns rest
        else .accepted id (id :: conns) rest
      | .v6 p =>
        let id : ID := ⟨laddr, p.raddr, p.isn⟩
        if id ∈ conns then sockitAccept is4 laddr conns rest
        else .accepted id (id :: conns) rest

/-- The sequence of identities accepted by repeatedly calling
`sockitAccept` on a packet stream (an `error` return does not close the
listener, so the caller's next Accept call resumes with the remaining
stream); no flow closes during the run, so the live set only grows.
`sockitRun_is_iterated_accept` below proves this fold equal to iterating
`sockitAccept`. -/
def sockitRun (is4 : Bool) (laddr : AddrPort) (conns : List ID) :
    List RawRead → List ID
  | [] => []
  | r :: rest =>
    if r.n < minSize is4 then
      sockitRun is4 laddr conns rest
    else
      match r.parse with
      | .other => sockitRun is4 laddr conns rest
      | .v4 p =>
        let id : ID := ⟨laddr, p.raddr, p.isn⟩
        if id ∈ conns then sockitRun is4 laddr conns rest
        else id :: sockitRun is4 laddr (id :: conns) rest
      | .v6 p =>
        let id : ID := ⟨laddr, p.raddr, p.isn⟩
        if id ∈ conns then sockitRun is4 laddr conns rest
        else id :: sockitRun is4 laddr (id :: conns) rest

/-- Does a read parse (with a sufficient size) to a SYN for identity `id`
on the given listener? Used to state when a run must accept `id`. -/
def goodSynFor (is4 : Bool) (laddr : AddrPort) (id : ID) (r : RawRead) : Bool :=
  decide (minSize is4 ≤ r.n) &&
    (r.parse = ParseKind.v4 ⟨id.remote, id.isn⟩ ||
     r.parse = ParseKind.v6 ⟨id.remote, id.isn⟩) &&
    decide (id.local_ = laddr)

/-! The remote-keyed registry of src/conn/tcp/eth_linux.go (listenerEth).
Its live set is the Go map `conns map[netip.AddrPort]uint32` (remote address
to ISN), modelled as an association list, and its retired queue is the slice
`closedConns []closedTCPInfo`. -/

/-- closedTCPInfo: one retired-identity record (retirement second, remote,
ISN). -/
structure ClosedInfo where
  deleteAt : Nat
  raddr : AddrPort
  isn : Nat
deriving DecidableEq, Repr

/-- Lookup in the remote-keyed live map (`l.conns[raddr]`). -/
def connsFind : List (AddrPort × Nat) → AddrPort → Option Nat
  | [], _ => none
  | (k, v) :: rest, r => if k = r then some v else connsFind rest r

/-- Map update `l.conns[raddr] = isn` (overwrite or insert). -/
def connsSet : List (AddrPort × Nat) → AddrPort → Nat → List (AddrPort × Nat)
  | [], r, isn => [(r, isn)]
  | (k, v) :: rest, r, isn =>
    if k = r then (k, isn) :: rest else (k, v) :: connsSet rest r isn

/-- Map removal `delete(l.conns, raddr)`. -/
def connsErase : List (AddrPort × Nat) → AddrPort → List (AddrPort × Nat)
  | [], _ => []
  | (k, v) :: rest, r => if k = r then rest else (k, v) :: connsErase rest r

/-- The conditional live-set removal inside purgeDeleted: delete the remote
from the live map only if it still maps to the same ISN. -/
def connsDelIfSame (conns : List (AddrPort × Nat)) (r : AddrPort) (isn : Nat) :
    List (AddrPort × Nat) :=
  match connsFind conns r with
  | some v => if v = isn then connsErase conns r else conns
  | none => conns

/-- The one-minute grace period, in seconds (`time.Minute`). -/
def graceSeconds : Nat := 60

/-- The loop body of listenerEth.purgeDeleted, iterating the index `i` from
`len(closedConns)-1` downward over the mutating slice. A `none` result is a
Go runtime panic: the source truncates with `l.closedConns = l.closedConns[:i-1]`,
which for `i = 0` is a slice-bounds panic, and after a truncation the next
iteration indexes one past the new length (modelled by the out-of-range
`List.get?` returning `none`). -/
def purgeLoop (now : Nat) :
    List (AddrPort × Nat) → List ClosedInfo → Nat →
      Option (List (AddrPort × Nat) × List ClosedInfo)
  | conns, queue, i =>
    match queue.get? i with
    | none => none
    | some c =>
      if graceSeconds < now - c.deleteAt then
        match i with
        | 0 => none
        | j + 1 =>
          purgeLoop now (connsDelIfSame conns c.raddr c.isn) (queue.take j) j
      else
        some (conns, queue)

/-- listenerEth.purgeDeleted: the lazy prune run at the top of each Accept
iteration. `none` is a Go panic. -/
def purgeDeleted (now : Nat) (conns : List (AddrPort × Nat))
    (queue : List ClosedInfo) :
    Option (List (AddrPort × Nat) × List ClosedInfo) :=
  match queue with
  | [] => some (conns, queue)
  | _ => purgeLoop now conns queue (queue.length - 1)

/-- The sort.Slice call in listenerEth.deleteConn. Its comparator reads
`l.closedConns[i].DeleteAt` for both operands (the second line also indexes
`i`), so it is `it.After(it)`, identically false; for the short queues used
here Go's insertion sort then leaves the slice in its original order. -/
def sortSelfCmp (queue : List ClosedInfo) : List ClosedInfo := queue

/-- listenerEth.deleteConn: the close notification appends (identity, now)
to the retired queue and runs the self-comparing sort. -/
def deleteConn (queue : List ClosedInfo) (raddr : AddrPort) (isn : Nat)
    (now : Nat) : List ClosedInfo :=
  sortSelfCmp (queue ++ [⟨now, raddr, isn⟩])

/-- Written from the spec's words, for comparison with `purgeDeleted`
(spec section 4.3 step 3): pop from the front of the retired queue while its
timestamp is older than now minus the grace period, removing each popped
identity from the live set when it still maps to the same ISN. -/
def claimedPruneFront (now : Nat) :
    List (AddrPort × Nat) → List ClosedInfo →
      List (AddrPort × Nat) × List ClosedInfo
  | conns, [] => (conns, [])
  | conns, c :: rest =>
    if graceSeconds < now - c.deleteAt then
      claimedPruneFront now (connsDelIfSame conns c.raddr c.isn) rest
    else
      (conns, c :: rest)

/-- Result of one listenerEth.Accept call. `panic` is a Go runtime panic
escaping from purgeDeleted. -/
inductive EthRes where
  | accepted (raddr : AddrPort) (isn : Nat)
      (conns : List (AddrPort × Nat)) (queue : List ClosedInfo)
      (rest : List RawRead)
  | error (n : Nat) (conns : List (AddrPort × Nat))
      (queue : List ClosedInfo) (rest : List RawRead)
  | blocked
  | panic
deriving DecidableEq, Repr

/-- listenerEth.Accept of src/conn/tcp/eth_linux.go: read a packet, check
its size, run the lazy prune, parse the version, then accept when the remote
is unmapped or mapped to a different ISN (`if !ok || (ok && old != isn)`),
else discard and loop. -/
def ethAccept (is4 : Bool) (conns : List (AddrPort × Nat))
    (queue : List ClosedInfo) : List RawRead → EthRes
  | [] => .blocked
  | r :: rest =>
    if r.n < minSize is4 then
      .error r.n conns queue rest
    else
      match purgeDeleted r.t conns queue with
      | none => .panic
      | some (conns1, queue1) =>
        let demux : SynPkt → EthRes := fun p =>
          match connsFind conns1 p.raddr with
          | some old =>
            if old = p.isn then ethAccept is4 conns1 queue1 rest
            else .accepted p.raddr p.isn (connsSet conns1 p.raddr p.isn)
                   queue1 rest
          | none => .accepted p.raddr p.isn (connsSet conns1 p.raddr p.isn)
                      queue1 rest
        match r.parse with
        | .other => ethAccept is4 conns1 queue1 rest
        | .v4 p => demux p
        | .v6 p => demux p

/-- The sequence of (remote, ISN) pairs accepted by repeatedly calling
listenerEth.Accept on a packet stream (no flow closes during the run, so
the retired queue receives no new entries); the run stops at a panic.
`ethRun_is_iterated_accept` below proves this fold equal to iterating
`ethAccept`. -/
def ethRun (is4 : Bool) (conns : List (AddrPort × Nat))
    (queue : List ClosedInfo) : List RawRead → List (AddrPort × Nat)
  | [] => []
  | r :: rest =>
    if r.n < minSize is4 then
      ethRun is4 conns queue rest
    else
      match purgeDeleted r.t conns queue with
      | none => []
      | some (conns1, queue1) =>
        let demux : SynPkt → List (AddrPort × Nat) := fun p =>
          match connsFind conns1 p.raddr with
          | some old =>
            if old = p.isn then ethRun is4 conns1 queue1 rest
            else (p.raddr, p.isn) ::
              ethRun is4 (connsSet conns1 p.raddr p.isn) queue1 rest
          | none => (p.raddr, p.isn) ::
              ethRun is4 (connsSet conns1 p.raddr p.isn) queue1 rest
        match r.parse with
        | .other => ethRun is4 conns1 queue1 rest
        | .v4 p => demux p
        | .v6 p => demux p

/-! conn.ListenLocal (src/unnamed/part_000): the Local Port Guard. -/

/-- Outcome of the kernel bind performed by `net.ListenTCP`. -/
inductive BindOut where
  | ok
  | addrInUse
  | otherFail
deriving DecidableEq, Repr

/-- Errors surfaced by ListenLocal. `notUsedPort` is `ErrNotUsedPort(port)`;
`bindFailed` is a propagated bind error; `filterFailed` is a failure while
attaching the always-reject filter to the occupying socket. -/
inductive PortGuardErr where
  | bindFailed
  | notUsedPort (port : Nat)
  | filterFailed
deriving DecidableEq, Repr

/-- conn.ListenLocal: claim the local TCP port. The Bool in the success
value records whether a live occupying listener is held (the source returns
`nil, laddr, nil` when reattaching to a prior reservation). `boundPort` is
the concrete port the kernel reports for a fresh bind. -/
def ListenLocal (laddr : AddrPort) (usedPort : Bool) (bind : BindOut)
    (filterOk : Bool) (boundPort : Nat) :
    Except PortGuardErr (Bool × AddrPort) :=
  match bind with
  | .addrInUse =>
    if usedPort then .ok (false, laddr) else .error .bindFailed
  | .otherFail => .error .bindFailed
  | .ok =>
    if usedPort then .error (.notUsedPort laddr.port)
    else if filterOk then .ok (true, ⟨laddr.addr, boundPort⟩)
    else .error .filterFailed

/-! The kernel packet-filter compiler (src/internal/bpf/bpf.go). The
programs are built from golang.org/x/net/bpf instructions; the interpreter
below implements the classic-BPF semantics of the instructions the source
uses. -/

/-- The golang.org/x/net/bpf instructions used by the source's programs. -/
inductive Instr where
  | loadAbsolute (off size : Nat)
  | loadIndirect (off size : Nat)
  | loadMemShift (off : Nat)
  | loadConstantX (val : Nat)
  | aluAndConst (val : Nat)
  | aluShiftRightConst (val : Nat)
  | jumpIfEqual (val skipTrue skipFalse : Nat)
  | jumpIfNotEqual (val skipTrue skipFalse : Nat)
  | retConstant (val : Nat)
deriving DecidableEq, Repr

/-- Big-endian load of `size` bytes (1 or 2) at `off`; `none` on an
out-of-packet access, which in classic BPF aborts the program and drops the
packet. -/
def loadBytes (pkt : List Nat) (off size : Nat) : Option Nat :=
  match size with
  | 1 => pkt.get? off
  | 2 =>
    match pkt.get? off, pkt.get? (off + 1) with
    | some hi, some lo => some (256 * hi + lo)
    | _, _ => none
  | _ => none

/-- Classic-BPF evaluation of an instruction list with accumulator `a` and
index register `x` (jumps only move forward, as `drop` over the remaining
program). `none` is a drop: the program fell off the end, hit an
unsupported load, or accessed past the packet. -/
def bpfExec (pkt : List Nat) (prog : List Instr) (a x : Nat) : Option Nat :=
  match prog with
  | [] => none
  | i :: rest =>
    match i with
    | .loadAbsolute off size =>
      match loadBytes pkt off size with
      | none => none
      | some v => bpfExec pkt rest v x
    | .loadIndirect off size =>
      match loadBytes pkt (x + off) size with
      | none => none
      | some v => bpfExec pkt rest v x
    | .loadMemShift off =>
      match pkt.get? off with
      | none => none
      | some b => bpfExec pkt rest a (4 * (b % 16))
    | .loadConstantX val => bpfExec pkt rest a val
    | .aluAndConst val => bpfExec pkt rest (Nat.land a val) x
    | .aluShiftRightConst val => bpfExec pkt rest (a >>> val) x
    | .jumpIfEqual val skipTrue skipFalse =>
      bpfExec pkt (rest.drop (if a = val then skipTrue else skipFalse)) a x
    | .jumpIfNotEqual val skipTrue skipFalse =>
      bpfExec pkt (rest.drop (if a ≠ val then skipTrue else skipFalse)) a x
    | .retConstant val => some val
termination_by prog.length
decreasing_by
  all_goals simp [List.length_drop]
  all_goals omega

/-- ipHeaderLen: load the IP version nibble, and set the index register to
the variable IPv4 header length (LoadMemShift: 4 times the low nibble of
byte 0) or to the fixed 40-byte IPv6 header length. -/
def ipHeaderLen : List Instr :=
  [ .loadAbsolute 0 1,
    .aluShiftRightConst 4,
    .jumpIfNotEqual 4 1 0,
    .loadMemShift 0,
    .jumpIfNotEqual 6 1 0,
    .loadConstantX 40 ]

/-- FilterDstPortAndSynFlag(port): after ipHeaderLen, accept only if the
transport destination port (2 bytes at transport offset 2, gvisor's
header.TCPDstPortOffset) equals `port` and the SYN bit (value 2, gvisor's
header.TCPFlagSyn) of the flags byte (transport offset 13, gvisor's
header.TCPFlagsOffset) is set; the accept verdict is 0xffff. -/
def FilterDstPortAndSynFlag (port : Nat) : List Instr :=
  ipHeaderLen ++
  [ .loadIndirect 2 2,
    .jumpIfEqual port 1 0,
    .retConstant 0,
    .loadIndirect 13 1,
    .aluAndConst 2,
    .jumpIfEqual 2 1 0,
    .retConstant 0,
    .retConstant 0xffff ]

/-- Kernel evaluation of the DstPortAndSyn filter on a captured packet. -/
def runSynFilter (port : Nat) (pkt : List Nat) : Option Nat :=
  bpfExec pkt (FilterDstPortAndSynFlag port) 0 0

/-! The embedded TCP engine (src/stack/stack.go, TCPStackGvisor). Only the
initialization state machine and the SendSeg/RecvSeg call surface are
modelled; the hosted gVisor endpoint's behaviour enters as explicit
outcome parameters. -/

/-- The engine state observable by SendSeg/RecvSeg: the `inited` atomic
flag, the sticky `initErr` field, and how many times `initTrigger.Broadcast`
has run (the single-assignment initialized signal). -/
structure EngState where
  inited : Bool
  initErr : Option String
  broadcasts : Nat
deriving DecidableEq, Repr

/-- initBase: endpoint creation plus bind; its failure message. -/
def initBase (bindOk : Bool) : Option String :=
  if bindOk then none else some "bind"

/-- The role-committing prologue shared by RecvRaw and SendRaw:
`s.inited.CompareAndSwap(false, true)`; on the first call run initBase,
recording and returning its failure (the asynchronous handshake driver is
spawned only on success and is modelled by `initConnect` applied later).
The second component is the error returned to this caller. -/
def recvRawCommit (s : EngState) (bindOk : Bool) : EngState × Option String :=
  if s.inited then (s, none)
  else
    match initBase bindOk with
    | some e => ({ s with inited := true, initErr := some e }, some e)
    | none => ({ s with inited := true }, none)

/-- initConnect: the asynchronous connect driver. On success it broadcasts
the initialized signal; on failure it stores the sticky error and returns
without broadcasting. -/
def initConnect (s : EngState) (connectOk : Bool) : EngState :=
  if connectOk then { s with broadcasts := s.broadcasts + 1 }
  else { s with initErr := some "connect" }

/-- Errors a SendSeg/RecvSeg call can return: the standard end-of-file
error (io.EOF) or an engine-specific error built from the gVisor error
string (`errors.New(e.String())`). -/
inductive SegErr where
  | eof
  | engine (msg : String)
deriving DecidableEq, Repr

/-- Observable outcome of a SendSeg/RecvSeg call: `blocked` models a call
waiting on the initialization condition variable (it returns only after a
broadcast), `ret` a returned (byte count, error) pair. -/
inductive SegCall where
  | blocked
  | ret (n : Nat) (e : Option SegErr)
deriving DecidableEq, Repr

/-- Outcome of one `ep.Write` against the hosted endpoint. -/
inductive EpWrite where
  | ok (n : Nat)
  | fail (msg : String)
deriving DecidableEq, Repr

/-- TCPStackGvisor.SendSeg: wait for initialization if `inited` is still
false, then write to the hosted endpoint and map its outcome; the sticky
`initErr` is never consulted. -/
def SendSeg (s : EngState) (w : EpWrite) : SegCall :=
  if s.inited = false then .blocked
  else
    match w with
    | .ok n => .ret n none
    | .fail m => .ret 0 (some (.engine m))

/-- Outcome of one `ep.Read` against the hosted endpoint. -/
inductive EpRead where
  | ok (n : Nat)
  | wouldBlock
  | closedForReceive
  | fail (msg : String)
deriving DecidableEq, Repr

/-- The RecvSeg retry loop: re-read until the endpoint stops answering
ErrWouldBlock; `none` means every read in the trace would block (the call
stays parked on the readable-event channel). -/
def resolveReads : List EpRead → Option EpRead
  | [] => none
  | .wouldBlock :: rest => resolveReads rest
  | r :: _ => some r

/-- TCPStackGvisor.RecvSeg: wait for initialization if needed, run the
retry loop, then map ErrClosedForReceive to `(0, io.EOF)`, other endpoint
errors to engine errors, and a successful read to its byte count. -/
def RecvSeg (s : EngState) (reads : List EpRead) : SegCall :=
  if s.inited = false then .blocked
  else
    match resolveReads reads with
    | none => .blocked
    | some (.ok n) => .ret n none
    | some .closedForReceive => .ret 0 (some .eof)
    | some (.fail m) => .ret 0 (some (.engine m))
    | some .wouldBlock => .blocked

/-! Flow setup (ConnEth.init in src/conn/tcp/eth_linux.go; Conn.init in
src/conn/tcp/tcp_linux.go is identical in structure). The model records the
order of the externally visible setup actions. -/

/-- Oracle for the external calls made during flow setup. -/
structure InitOracle where
  routeOk : Bool
  nextValid : Bool
  ifaceOk : Bool
deriving DecidableEq, Repr

/-- Outcome of flow setup. `errTornDown` carries the failure after the
deferred `c.Close()` ran; `panicNilRaw` is the nil-pointer dereference of
`arp.Dial(c.raw.Interface())` when `c.raw` has not been assigned yet. -/
inductive InitOut where
  | ok
  | errTornDown (msg : String)
  | panicNilRaw
deriving DecidableEq, Repr

/-- ConnEth.init, with an event trace of the setup actions in source order.
`raw0` is the value of the flow's link-layer handle at entry (newConnectEth
leaves it unassigned, i.e. `none`); `eth.Listen` would assign it only after
the gateway-resolution block. -/
def ConnEthInit (o : InitOracle) (raw0 : Option Unit) :
    InitOut × List String :=
  if o.routeOk = false then (.errTornDown "route", ["getBestInterface"])
  else if o.nextValid = false then
    (.errTornDown "not support loopback connect", ["getBestInterface"])
  else if o.ifaceOk = false then
    (.errTornDown "interfaceByIndex", ["getBestInterface", "interfaceByIndex"])
  else
    match raw0 with
    | none =>
      (.panicNilRaw, ["getBestInterface", "interfaceByIndex", "arpDialOnRaw"])
    | some _ =>
      (.ok, ["getBestInterface", "interfaceByIndex", "arpDialOnRaw",
             "arpResolve", "ethListen", "setBpfEndpoint", "ipstackNew"])

/-! The IP/Transport Header Stamping Engine. Its implementation
(helper/ipstack) is not under src/ — only its test (src/ipstack_test.go) —
so the definitions in this block are modelled from the spec (section 4.5),
at the granularity the spec describes: a structured network header plus the
transport segment as 16-bit words, with the genuine ones-complement
internet checksum. -/

/-- Ones-complement 16-bit addition with end-around carry, the internet
checksum primitive. -/
def onesAdd (a b : Nat) : Nat :=
  if a + b < 65536 then a + b else a + b - 65535

/-- Ones-complement sum of a list of 16-bit words. -/
def onesSum (l : List Nat) : Nat :=
  l.foldl onesAdd 0

/-- The checksum policy of the Header Stamp Context: recompute-from-scratch
(relraw.ReCalcChecksum) or update-only (relraw.UpdateChecksum). -/
inductive ChecksumPolicy where
  | reCalc
  | update
deriving DecidableEq, Repr

/-- Modelled from the spec: the Header Stamp Context (local address, remote
address, transport protocol number, checksum policy, IPv4 identification
counter). Addresses are lists of 16-bit words (2 for IPv4, 8 for IPv6). -/
structure IPStack where
  src : List Nat
  dst : List Nat
  proto : Nat
  policy : ChecksumPolicy
  ipId : Nat
deriving DecidableEq, Repr

/-- A transport segment as 16-bit words, with its checksum field held
separately: the words before the checksum field, the checksum, and the
words after it. -/
structure Seg where
  preCks : List Nat
  cks : Nat
  postCks : List Nat
deriving DecidableEq, Repr

/-- The re-parsed network header of a stamped outbound packet. -/
structure NetHeader where
  src : List Nat
  dst : List Nat
  proto : Nat
  totalLen : Nat
  ipId : Nat
deriving DecidableEq, Repr

/-- A stamped outbound packet: network header plus transport segment. -/
structure OutPkt where
  hdr : NetHeader
  seg : Seg
deriving DecidableEq, Repr

/-- Length of the transport segment in 16-bit words. -/
def segWords (seg : Seg) : Nat :=
  seg.preCks.length + 1 + seg.postCks.length

/-- The transport pseudo-header entering the checksum: source address,
destination address, protocol, transport length in bytes (as 16-bit
fields). -/
def pseudoWords (src dst : List Nat) (proto : Nat) (seg : Seg) : List Nat :=
  src ++ dst ++ [proto % 65536, (2 * segWords seg) % 65536]

/-- The transport words with the checksum field zeroed, the input of a
recompute-from-scratch checksum derivation. -/
def zeroCksWords (seg : Seg) : List Nat :=
  seg.preCks ++ 0 :: seg.postCks

/-- The transport words as they appear on the wire. -/
def wireWords (seg : Seg) : List Nat :=
  seg.preCks ++ seg.cks :: seg.postCks

/-- Is the transport checksum valid against the final bytes? The
ones-complement sum of pseudo-header and wire words must be 0xffff, as in
gvisor's IsChecksumValid. -/
def validChecksum (src dst : List Nat) (proto : Nat) (seg : Seg) : Prop :=
  onesSum (pseudoWords src dst proto seg ++ wireWords seg) = 65535

instance (src dst : List Nat) (proto : Nat) (seg : Seg) :
    Decidable (validChecksum src dst proto seg) := by
  unfold validChecksum
  infer_instance

/-- Modelled from the spec: AttachOutbound stamps the network header
(source, destination, protocol, total length from the buffer's actual size,
IPv4 identification from the counter, which increments per stamp) and
applies the checksum policy: recompute-from-scratch derives the transport
checksum fresh from the final bytes, update-only leaves the transport
words untouched. -/
def AttachOutbound (s : IPStack) (hdrBytes : Nat) (seg : Seg) :
    IPStack × OutPkt :=
  let cks :=
    match s.policy with
    | .reCalc =>
      65535 - onesSum (pseudoWords s.src s.dst s.proto seg ++ zeroCksWords seg)
    | .update => seg.cks
  ({ s with ipId := s.ipId + 1 },
   { hdr := { src := s.src, dst := s.dst, proto := s.proto,
              totalLen := hdrBytes + 2 * segWords seg,
              ipId := s.ipId % 65536 },
     seg := { seg with cks := cks } })

/-- All words of a list are 16-bit values. -/
def wordsBounded (l : List Nat) : Prop :=
  ∀ w ∈ l, w ≤ 65535

instance (l : List Nat) : Decidable (wordsBounded l) := by
  unfold wordsBounded
  infer_instance

/-- Does a read parse (with a sufficient size) to a SYN carrying exactly
(raddr, isn)? The remote-keyed registry's analogue of `goodSynFor`. -/
def goodSynForEth (is4 : Bool) (raddr : AddrPort) (isn : Nat)
    (r : RawRead) : Bool :=
  decide (minSize is4 ≤ r.n) &&
    (r.parse = ParseKind.v4 ⟨raddr, isn⟩ ||
     r.parse = ParseKind.v6 ⟨raddr, isn⟩)

/-- A read whose SYN, if from remote `raddr`, carries the ISN `isn`. -/
def readConsistent (raddr : AddrPort) (isn : Nat) (r : RawRead) : Bool :=
  match r.parse with
  | .v4 p => !(decide (p.raddr = raddr)) || decide (p.isn = isn)
  | .v6 p => !(decide (p.raddr = raddr)) || decide (p.isn = isn)
  | .other => true

/-- Every SYN in the stream from remote `raddr` carries the ISN `isn`:
the side condition under which the remote-keyed registry cannot re-key
`raddr` during a run. -/
def synConsistent (raddr : AddrPort) (isn : Nat) (reads : List RawRead) : Prop :=
  ∀ r ∈ reads, readConsistent raddr isn r = true

instance (raddr : AddrPort) (isn : Nat) (reads : List RawRead) :
    Decidable (synConsistent raddr isn reads) := by
  unfold synConsistent
  infer_instance

/-- Retirement timestamps are non-decreasing along the queue. -/
def qMono (queue : List ClosedInfo) : Prop :=
  List.Pairwise (fun a b => a.deleteAt ≤ b.deleteAt) queue

instance (queue : List ClosedInfo) : Decidable (qMono queue) := by
  unfold qMono
  infer_instance

/-! Theorems. -/

/-- C7: Local Port Guard bind outcomes: with expected-already-reserved, an
address-in-use bind failure is success returning the caller-supplied
address; a fresh successful bind is the NotReservedPort error; any other
bind failure propagates (with or without the expectation), as does an
address-in-use failure without the expectation. -/
theorem C7_listen_local_outcomes (laddr : AddrPort) (filterOk : Bool)
    (boundPort : Nat) :
    ListenLocal laddr true .addrInUse filterOk boundPort = .ok (false, laddr) ∧
    ListenLocal laddr true .ok filterOk boundPort
      = .error (.notUsedPort laddr.port) ∧
    (∀ usedPort : Bool,
      ListenLocal laddr usedPort .otherFail filterOk boundPort
        = .error .bindFailed) ∧
    ListenLocal laddr false .addrInUse filterOk boundPort
      = .error .bindFailed := by
  exact ⟨rfl, rfl, fun _ => rfl, rfl⟩

/-- C3: evaluation of the embedded engine at a failed asynchronous connect:
the sticky error is recorded, but the initialized signal is never broadcast
(so a SendSeg/RecvSeg call blocked on it is never woken: from the
uninitialized state such a call is `blocked`), and a subsequent
SendSeg/RecvSeg returns the hosted endpoint's own outcome, never the cached
initialization error — contradicting the claim that every subsequent and
currently-blocked call returns it. -/
theorem C3_sticky_error_not_surfaced :
    (initConnect (recvRawCommit ⟨false, none, 0⟩ true).1 false).initErr
      = some "connect" ∧
    (initConnect (recvRawCommit ⟨false, none, 0⟩ true).1 false).broadcasts
      = 0 ∧
    SendSeg (initConnect (recvRawCommit ⟨false, none, 0⟩ true).1 false) (.ok 5)
      = .ret 5 none ∧
    RecvSeg (initConnect (recvRawCommit ⟨false, none, 0⟩ true).1 false) [.ok 3]
      = .ret 3 none ∧
    SendSeg ⟨false, none, 0⟩ (.ok 5) = .blocked := by
  exact ⟨rfl, rfl, rfl, rfl, rfl⟩

/-- C8: evaluation of flow setup with an off-link next hop: the code
reaches the ARP dial on the flow's link-layer handle before `eth.Listen`
has assigned that handle (it is still nil), so setup dereferences a nil
handle and never performs the open-handle/attach-filter steps first as the
claim states. -/
theorem C8_arp_before_link_handle :
    ConnEthInit ⟨true, true, true⟩ none =
      (.panicNilRaw, ["getBestInterface", "interfaceByIndex", "arpDialOnRaw"])
    := rfl

/-- C10: when the hosted endpoint reports ErrClosedForReceive, RecvSeg
returns a zero byte count and the standard end-of-file error, not an
engine-specific error value. -/
theorem C10_recv_closed_returns_eof (s : EngState) (reads : List EpRead)
    (hinit : s.inited = true)
    (hres : resolveReads reads = some .closedForReceive) :
    RecvSeg s reads = .ret 0 (some .eof) := by
  simp [RecvSeg, hinit, hres]

/-- Witness for C10 at a concrete trace with one would-block retry. -/
theorem C10_witness :
    (⟨true, none, 1⟩ : EngState).inited = true ∧
    resolveReads [.wouldBlock, .closedForReceive] = some .closedForReceive ∧
    RecvSeg ⟨true, none, 1⟩ [.wouldBlock, .closedForReceive]
      = .ret 0 (some .eof) :=
  ⟨rfl, rfl, C10_recv_closed_returns_eof _ _ rfl rfl⟩

/-- C5, counterexample: a read below the minimum size makes Accept return
the `recved invalid ip packet` error to the caller; it does not continue
waiting (continuing would have accepted the next packet's SYN). -/
theorem C5_counterexample :
    sockitAccept true ⟨1, 80⟩ []
        [⟨10, 0, .v4 ⟨⟨2, 3⟩, 9⟩⟩, ⟨60, 0, .v4 ⟨⟨2, 3⟩, 9⟩⟩]
      = .error 10 [⟨60, 0, .v4 ⟨⟨2, 3⟩, 9⟩⟩] ∧
    sockitAccept true ⟨1, 80⟩ [] [⟨60, 0, .v4 ⟨⟨2, 3⟩, 9⟩⟩]
      = .accepted ⟨⟨1, 80⟩, ⟨2, 3⟩, 9⟩ [⟨⟨1, 80⟩, ⟨2, 3⟩, 9⟩] [] ∧
    sockitAccept true ⟨1, 80⟩ []
        [⟨10, 0, .v4 ⟨⟨2, 3⟩, 9⟩⟩, ⟨60, 0, .v4 ⟨⟨2, 3⟩, 9⟩⟩]
      ≠ sockitAccept true ⟨1, 80⟩ [] [⟨60, 0, .v4 ⟨⟨2, 3⟩, 9⟩⟩] := by
  decide

/-- C5, amended: in both registries, a read smaller than the minimum valid
IP-plus-TCP header size makes Accept return an error carrying the byte
count to the caller, leaving the rest of the stream unread. -/
theorem C5_short_read_returns_error (is4 : Bool) (laddr : AddrPort)
    (conns : List ID) (conns2 : List (AddrPort × Nat))
    (queue : List ClosedInfo) (r : RawRead) (rest : List RawRead)
    (h : r.n < minSize is4) :
    sockitAccept is4 laddr conns (r :: rest) = .error r.n rest ∧
    ethAccept is4 conns2 queue (r :: rest) = .error r.n conns2 queue rest := by
  constructor
  · unfold sockitAccept
    rw [if_pos h]
  · unfold ethAccept
    rw [if_pos h]

/-- Witness for C5 at a concrete 10-byte read. -/
theorem C5_witness :
    (10 < minSize true) ∧
    (sockitAccept true ⟨1, 80⟩ [] [⟨10, 0, .v4 ⟨⟨2, 3⟩, 9⟩⟩]
        = .error 10 [] ∧
     ethAccept true [] [] [⟨10, 0, .v4 ⟨⟨2, 3⟩, 9⟩⟩] = .error 10 [] [] []) :=
  ⟨by decide,
   C5_short_read_returns_error true ⟨1, 80⟩ [] [] [] ⟨10, 0, .v4 ⟨⟨2, 3⟩, 9⟩⟩
     [] (by decide)⟩

/-- C4: evaluation of the grace period at the remote-keyed registry, for a
flow with identity (remote ⟨2,3⟩, ISN 7) retired at second 0. A duplicate
SYN read at second 30 (inside the one-minute grace period) is discarded and
produces no accept; but a SYN read at second 120 (after the grace period)
makes the prune pass panic (the source truncates with
`closedConns[:i-1]` at `i = 0`), so the identity is never accepted again. -/
theorem C4_grace_period_evaluation :
    ethAccept true [(⟨2, 3⟩, 7)] [⟨0, ⟨2, 3⟩, 7⟩]
        [⟨60, 30, .v4 ⟨⟨2, 3⟩, 7⟩⟩] = .blocked ∧
    ethAccept true [(⟨2, 3⟩, 7)] [⟨0, ⟨2, 3⟩, 7⟩]
        [⟨60, 120, .v4 ⟨⟨2, 3⟩, 7⟩⟩] = .panic := by
  decide

/-- C6, counterexample: with an expired record at the front of the retired
queue and a fresh one at the back, the code's prune removes nothing — it
starts at the back and stops there — while the front-pruning the claim
states would pop the expired front record and its live-set entry. -/
theorem C6_counterexample :
    purgeDeleted 120 [(⟨2, 3⟩, 7)] [⟨0, ⟨2, 3⟩, 7⟩, ⟨110, ⟨4, 5⟩, 8⟩]
      = some ([(⟨2, 3⟩, 7)], [⟨0, ⟨2, 3⟩, 7⟩, ⟨110, ⟨4, 5⟩, 8⟩]) ∧
    claimedPruneFront 120 [(⟨2, 3⟩, 7)] [⟨0, ⟨2, 3⟩, 7⟩, ⟨110, ⟨4, 5⟩, 8⟩]
      = ([], [⟨110, ⟨4, 5⟩, 8⟩]) ∧
    purgeDeleted 120 [(⟨2, 3⟩, 7)] [⟨0, ⟨2, 3⟩, 7⟩, ⟨110, ⟨4, 5⟩, 8⟩]
      ≠ some (claimedPruneFront 120 [(⟨2, 3⟩, 7)]
          [⟨0, ⟨2, 3⟩, 7⟩, ⟨110, ⟨4, 5⟩, 8⟩]) := by
  decide

/-- C1, counterexample: on the remote-keyed registry, a SYN from the same
remote with a different ISN between two SYNs with identity (⟨2,3⟩, ISN 1)
re-keys the remote, and the identity is accepted twice although its first
flow never closed — not exactly once as the claim states. -/
theorem C1_counterexample :
    List.count (⟨⟨2, 3⟩, 1⟩ : AddrPort × Nat)
      (ethRun true [] []
        [⟨60, 0, .v4 ⟨⟨2, 3⟩, 1⟩⟩, ⟨60, 0, .v4 ⟨⟨2, 3⟩, 2⟩⟩,
         ⟨60, 0, .v4 ⟨⟨2, 3⟩, 1⟩⟩]) = 2 := by
  decide

/-! Ones-complement checksum arithmetic. -/

theorem onesAdd_le {a b : Nat} (ha : a ≤ 65535) (hb : b ≤ 65535) :
    onesAdd a b ≤ 65535 := by
  unfold onesAdd
  split <;> omega

theorem onesAdd_zero {a : Nat} (ha : a ≤ 65535) : onesAdd a 0 = a := by
  unfold onesAdd
  split <;> omega

theorem onesAdd_comm (a b : Nat) : onesAdd a b = onesAdd b a := by
  unfold onesAdd
  split <;> split <;> omega

theorem onesAdd_assoc {a b c : Nat} (ha : a ≤ 65535) (hb : b ≤ 65535)
    (hc : c ≤ 65535) :
    onesAdd (onesAdd a b) c = onesAdd a (onesAdd b c) := by
  unfold onesAdd
  split_ifs <;> omega

theorem foldl_onesAdd_le :
    ∀ (l : List Nat) (x : Nat), x ≤ 65535 → wordsBounded l →
      List.foldl onesAdd x l ≤ 65535 := by
  intro l
  induction l with
  | nil => intro x hx _; simpa using hx
  | cons a l ih =>
    intro x hx hb
    have ha : a ≤ 65535 := hb a (List.mem_cons_self a l)
    have hl : wordsBounded l := fun w hw => hb w (List.mem_cons_of_mem a hw)
    simpa using ih (onesAdd x a) (onesAdd_le hx ha) hl

theorem foldl_onesAdd_pull :
    ∀ (l : List Nat) (x c : Nat), x ≤ 65535 → c ≤ 65535 → wordsBounded l →
      List.foldl onesAdd (onesAdd x c) l = onesAdd (List.foldl onesAdd x l) c := by
  intro l
  induction l with
  | nil => intro x c _ _ _; rfl
  | cons a l ih =>
    intro x c hx hc hb
    have ha : a ≤ 65535 := hb a (List.mem_cons_self a l)
    have hl : wordsBounded l := fun w hw => hb w (List.mem_cons_of_mem a hw)
    have hswap : onesAdd (onesAdd x c) a = onesAdd (onesAdd x a) c := by
      rw [onesAdd_assoc hx hc ha, onesAdd_comm c a, ← onesAdd_assoc hx ha hc]
    simp only [List.foldl_cons, hswap]
    exact ih (onesAdd x a) c (onesAdd_le hx ha) hc hl

/-- Setting the checksum field to the complement of the ones-complement sum
of everything else makes the full ones-complement sum 0xffff: the crux of
recompute-from-scratch validity. -/
theorem onesSum_complement_valid (P A B : List Nat)
    (hP : wordsBounded P) (hA : wordsBounded A) (hB : wordsBounded B) :
    onesSum (P ++ (A ++ (65535 - onesSum (P ++ (A ++ 0 :: B))) :: B))
      = 65535 := by
  have hPA : List.foldl onesAdd 0 (P ++ A) ≤ 65535 := by
    refine foldl_onesAdd_le (P ++ A) 0 (by omega) ?_
    intro w hw
    rcases List.mem_append.mp hw with h | h
    · exact hP w h
    · exact hA w h
  have hfold0 : onesSum (P ++ (A ++ 0 :: B))
      = List.foldl onesAdd (List.foldl onesAdd 0 (P ++ A)) B := by
    unfold onesSum
    rw [← List.append_assoc, List.foldl_append, List.foldl_cons,
      onesAdd_zero hPA]
  have hs0le : onesSum (P ++ (A ++ 0 :: B)) ≤ 65535 := by
    rw [hfold0]
    exact foldl_onesAdd_le B _ hPA hB
  generalize hc : 65535 - onesSum (P ++ (A ++ 0 :: B)) = c
  have hcle : c ≤ 65535 := by omega
  unfold onesSum
  rw [← List.append_assoc, List.foldl_append, List.foldl_cons,
    foldl_onesAdd_pull B _ c hPA hcle hB]
  rw [show List.foldl onesAdd (List.foldl onesAdd 0 (P ++ A)) B
      = onesSum (P ++ (A ++ 0 :: B)) from hfold0.symm]
  unfold onesAdd
  split <;> omega

/-- The pseudo-header words are 16-bit values whenever the addresses are. -/
theorem pseudoWords_bounded (src dst : List Nat) (proto : Nat) (seg : Seg)
    (hsrc : wordsBounded src) (hdst : wordsBounded dst) :
    wordsBounded (pseudoWords src dst proto seg) := by
  intro w hw
  unfold pseudoWords at hw
  rcases List.mem_append.mp hw with h | h
  · rcases List.mem_append.mp h with h2 | h2
    · exact hsrc w h2
    · exact hdst w h2
  · rcases List.mem_cons.mp h with h2 | h2
    · subst h2; exact Nat.le_of_lt_succ (Nat.mod_lt _ (by omega))
    · rcases List.mem_singleton.mp h2 with h3
      subst h3; exact Nat.le_of_lt_succ (Nat.mod_lt _ (by omega))

/-- C2: AttachOutbound round-trip. The re-parsed network header carries the
context's source, destination and transport protocol, and the transport
payload words are untouched; under recompute-from-scratch the resulting
transport checksum validates against the final bytes, and under update-only
a transport checksum that was valid before the call remains valid after
it. -/
theorem C2_attach_outbound_roundtrip (s : IPStack) (hdrBytes : Nat)
    (seg : Seg) (hsrc : wordsBounded s.src) (hdst : wordsBounded s.dst)
    (hpre : wordsBounded seg.preCks) (hpost : wordsBounded seg.postCks) :
    (AttachOutbound s hdrBytes seg).2.hdr.src = s.src ∧
    (AttachOutbound s hdrBytes seg).2.hdr.dst = s.dst ∧
    (AttachOutbound s hdrBytes seg).2.hdr.proto = s.proto ∧
    (AttachOutbound s hdrBytes seg).2.seg.preCks = seg.preCks ∧
    (AttachOutbound s hdrBytes seg).2.seg.postCks = seg.postCks ∧
    (s.policy = .reCalc →
      validChecksum s.src s.dst s.proto (AttachOutbound s hdrBytes seg).2.seg) ∧
    (s.policy = .update →
      validChecksum s.src s.dst s.proto seg →
        validChecksum s.src s.dst s.proto (AttachOutbound s hdrBytes seg).2.seg)
    := by
  refine ⟨rfl, rfl, rfl, rfl, rfl, ?_, ?_⟩
  · intro hpol
    unfold AttachOutbound validChecksum
    simp only [hpol]
    have hseg : pseudoWords s.src s.dst s.proto
        { seg with cks := 65535 - onesSum (pseudoWords s.src s.dst s.proto seg
            ++ zeroCksWords seg) }
        = pseudoWords s.src s.dst s.proto seg := rfl
    rw [hseg]
    unfold wireWords zeroCksWords
    exact onesSum_complement_valid _ _ _
      (pseudoWords_bounded s.src s.dst s.proto seg hsrc hdst) hpre hpost
  · intro hpol hvalid
    unfold AttachOutbound
    simp only [hpol]
    exact hvalid

/-- Witness for C2 at a concrete context and segment, under both checksum
policies (64981 is the complement of the ones-complement sum of the
pseudo-header and the zero-checksum words, so the update-only input is
pre-valid). -/
theorem C2_witness :
    wordsBounded ([1, 2] : List Nat) ∧
    validChecksum [1, 2] [3, 4] 6
      (AttachOutbound ⟨[1, 2], [3, 4], 6, .reCalc, 0⟩ 20
        ⟨[80, 443], 0, [7]⟩).2.seg ∧
    validChecksum [1, 2] [3, 4] 6
      (AttachOutbound ⟨[1, 2], [3, 4], 6, .update, 5⟩ 20
        ⟨[80, 443], 64981, [7]⟩).2.seg ∧
    (AttachOutbound ⟨[1, 2], [3, 4], 6, .reCalc, 0⟩ 20
      ⟨[80, 443], 0, [7]⟩).2.hdr.src = [1, 2] :=
  ⟨by decide,
   (C2_attach_outbound_roundtrip ⟨[1, 2], [3, 4], 6, .reCalc, 0⟩ 20
      ⟨[80, 443], 0, [7]⟩ (by decide) (by decide) (by decide)
      (by decide)).2.2.2.2.2.1 rfl,
   (C2_attach_outbound_roundtrip ⟨[1, 2], [3, 4], 6, .update, 5⟩ 20
      ⟨[80, 443], 64981, [7]⟩ (by decide) (by decide) (by decide)
      (by decide)).2.2.2.2.2.2 rfl (by decide),
   (C2_attach_outbound_roundtrip ⟨[1, 2], [3, 4], 6, .reCalc, 0⟩ 20
      ⟨[80, 443], 0, [7]⟩ (by decide) (by decide) (by decide)
      (by decide)).1⟩

/-- C9: the DstPortAndSyn(port) filter tests only the SYN bit of the flags
byte: for every captured IPv4 or IPv6 packet whose transport destination
port (two bytes at transport offset 2) equals `port`, any flags byte whose
SYN bit (value 2) is set — whatever the other flag bits — yields the accept
verdict 0xffff. `x` is the network-header length the filter computes (four
times the low nibble of byte 0 for IPv4, the fixed 40 for IPv6). -/
theorem C9_syn_filter_accepts_any_syn (pkt : List Nat)
    (port x b0 hi lo fl : Nat)
    (h0 : pkt.get? 0 = some b0)
    (hx : (b0 / 16 = 4 ∧ x = 4 * (b0 % 16)) ∨ (b0 / 16 = 6 ∧ x = 40))
    (hhi : pkt.get? (x + 2) = some hi)
    (hlo : pkt.get? (x + 2 + 1) = some lo)
    (hport : 256 * hi + lo = port)
    (hfl : pkt.get? (x + 13) = some fl)
    (hsyn : Nat.land fl 2 = 2) :
    runSynFilter port pkt = some 65535 := by
  have hshift : b0 >>> 4 = b0 / 16 := by
    rw [Nat.shiftRight_eq_div_pow]
  rcases hx with ⟨hv, rfl⟩ | ⟨hv, rfl⟩
  · unfold runSynFilter FilterDstPortAndSynFlag ipHeaderLen
    simp only [List.cons_append, List.nil_append]
    rw [bpfExec]
    simp only [loadBytes, h0]
    rw [bpfExec]
    simp only [hshift, hv]
    rw [bpfExec]
    norm_num
    rw [bpfExec]
    simp only [h0]
    rw [bpfExec]
    norm_num
    rw [bpfExec]
    simp only [loadBytes, hhi, hlo, hport]
    rw [bpfExec]
    norm_num
    rw [bpfExec]
    simp only [loadBytes, hfl]
    rw [bpfExec]
    simp only [hsyn]
    rw [bpfExec]
    norm_num
    rw [bpfExec]
  · norm_num at hhi hlo hfl
    unfold runSynFilter FilterDstPortAndSynFlag ipHeaderLen
    simp only [List.cons_append, List.nil_append]
    rw [bpfExec]
    simp only [loadBytes, h0]
    rw [bpfExec]
    simp only [hshift, hv]
    rw [bpfExec]
    norm_num
    rw [bpfExec]
    norm_num
    rw [bpfExec]
    rw [bpfExec]
    simp only [loadBytes]
    norm_num
    simp only [hhi, hlo, hport]
    rw [bpfExec]
    norm_num
    rw [bpfExec]
    simp only [loadBytes]
    norm_num
    simp only [hfl]
    rw [bpfExec]
    simp only [hsyn]
    rw [bpfExec]
    norm_num
    rw [bpfExec]

/-- A read below the minimum size is not a good SYN. -/
theorem goodSynFor_false_short {is4 : Bool} {laddr : AddrPort} {id : ID}
    {r : RawRead} (hn : r.n < minSize is4) :
    goodSynFor is4 laddr id r = false := by
  unfold goodSynFor
  rw [decide_eq_false (by omega : ¬ (minSize is4 ≤ r.n))]
  simp

/-- A read of unknown IP version is not a good SYN. -/
theorem goodSynFor_false_other {is4 : Bool} {laddr : AddrPort} {id : ID}
    {r : RawRead} (hp : r.parse = .other) :
    goodSynFor is4 laddr id r = false := by
  unfold goodSynFor
  rw [hp]
  simp

/-- Once an identity is live in the identity-keyed registry, no later
packet of the run is accepted for it. -/
theorem sockitRun_count_zero (is4 : Bool) (laddr : AddrPort) (id : ID) :
    ∀ (reads : List RawRead) (conns : List ID), id ∈ conns →
      List.count id (sockitRun is4 laddr conns reads) = 0 := by
  intro reads
  induction reads with
  | nil => intro conns _; rfl
  | cons r rest ih =>
    intro conns hmem
    by_cases hn : r.n < minSize is4
    · rw [sockitRun, if_pos hn]
      exact ih conns hmem
    · rw [sockitRun, if_neg hn]
      cases hp : r.parse with
      | other => exact ih conns hmem
      | v4 p =>
        show List.count id
          (if (⟨laddr, p.raddr, p.isn⟩ : ID) ∈ conns then
            sockitRun is4 laddr conns rest
          else (⟨laddr, p.raddr, p.isn⟩ : ID) ::
            sockitRun is4 laddr (⟨laddr, p.raddr, p.isn⟩ :: conns) rest) = 0
        by_cases hm : (⟨laddr, p.raddr, p.isn⟩ : ID) ∈ conns
        · rw [if_pos hm]
          exact ih conns hmem
        · rw [if_neg hm]
          have hne : (⟨laddr, p.raddr, p.isn⟩ : ID) ≠ id :=
            fun h => hm (h ▸ hmem)
          rw [List.count_cons,
            ih (⟨laddr, p.raddr, p.isn⟩ :: conns) (List.mem_cons_of_mem _ hmem)]
          simp [hne]
      | v6 p =>
        show List.count id
          (if (⟨laddr, p.raddr, p.isn⟩ : ID) ∈ conns then
            sockitRun is4 laddr conns rest
          else (⟨laddr, p.raddr, p.isn⟩ : ID) ::
            sockitRun is4 laddr (⟨laddr, p.raddr, p.isn⟩ :: conns) rest) = 0
        by_cases hm : (⟨laddr, p.raddr, p.isn⟩ : ID) ∈ conns
        · rw [if_pos hm]
          exact ih conns hmem
        · rw [if_neg hm]
          have hne : (⟨laddr, p.raddr, p.isn⟩ : ID) ≠ id :=
            fun h => hm (h ▸ hmem)
          rw [List.count_cons,
            ih (⟨laddr, p.raddr, p.isn⟩ :: conns) (List.mem_cons_of_mem _ hmem)]
          simp [hne]

/-- Identity-keyed registry: starting from a state where `id` is not live,
a run accepts `id` exactly once when the stream carries at least one good
SYN for it, and never otherwise. -/
theorem sockitRun_count_one (is4 : Bool) (laddr : AddrPort) (id : ID)
    (hl : id.local_ = laddr) :
    ∀ (reads : List RawRead) (conns : List ID), id ∉ conns →
      List.count id (sockitRun is4 laddr conns reads)
        = (if reads.any (goodSynFor is4 laddr id) then 1 else 0) := by
  intro reads
  induction reads with
  | nil => intro conns _; rfl
  | cons r rest ih =>
    intro conns hmem
    by_cases hn : r.n < minSize is4
    · rw [sockitRun, if_pos hn, ih conns hmem]
      rw [List.any_cons, goodSynFor_false_short hn, Bool.false_or]
    · rw [sockitRun, if_neg hn]
      cases hp : r.parse with
      | other =>
        show List.count id (sockitRun is4 laddr conns rest) = _
        rw [ih conns hmem, List.any_cons, goodSynFor_false_other hp,
          Bool.false_or]
      | v4 p =>
        by_cases hid : p = (⟨id.remote, id.isn⟩ : SynPkt)
        · have hid2 : (⟨laddr, p.raddr, p.isn⟩ : ID) = id := by
            subst hid
            rw [← hl]
          have hg : goodSynFor is4 laddr id r = true := by
            unfold goodSynFor
            rw [hp, hid, decide_eq_true (by omega : minSize is4 ≤ r.n),
              decide_eq_true hl]
            simp
          show List.count id
            (if (⟨laddr, p.raddr, p.isn⟩ : ID) ∈ conns then
              sockitRun is4 laddr conns rest
            else (⟨laddr, p.raddr, p.isn⟩ : ID) ::
              sockitRun is4 laddr (⟨laddr, p.raddr, p.isn⟩ :: conns) rest) = _
          rw [if_neg (hid2 ▸ hmem)]
          rw [List.count_cons,
            sockitRun_count_zero is4 laddr id rest
              (⟨laddr, p.raddr, p.isn⟩ :: conns) (hid2 ▸ List.mem_cons_self _ _),
            List.any_cons, hg]
          simp [hid2]
        · have hg : goodSynFor is4 laddr id r = false := by
            unfold goodSynFor
            rw [hp]
            have : (ParseKind.v4 p = ParseKind.v4 ⟨id.remote, id.isn⟩) = False := by
              simp
              exact fun h => hid (by rw [h])
            simp [this]
          have hid2 : (⟨laddr, p.raddr, p.isn⟩ : ID) ≠ id := by
            intro h
            apply hid
            have h1 : p.raddr = id.remote := by
              have := congrArg ID.remote h
              simpa using this
            have h2 : p.isn = id.isn := by
              have := congrArg ID.isn h
              simpa using this
            cases p
            simp_all
          show List.count id
            (if (⟨laddr, p.raddr, p.isn⟩ : ID) ∈ conns then
              sockitRun is4 laddr conns rest
            else (⟨laddr, p.raddr, p.isn⟩ : ID) ::
              sockitRun is4 laddr (⟨laddr, p.raddr, p.isn⟩ :: conns) rest) = _
          by_cases hm : (⟨laddr, p.raddr, p.isn⟩ : ID) ∈ conns
          · rw [if_pos hm, ih conns hmem, List.any_cons, hg, Bool.false_or]
          · rw [if_neg hm, List.count_cons,
              ih (⟨laddr, p.raddr, p.isn⟩ :: conns)
                (fun h => (List.mem_cons.mp h).elim
                  (fun heq => hid2 heq.symm) hmem),
              List.any_cons, hg, Bool.false_or]
            simp [hid2]
      | v6 p =>
        by_cases hid : p = (⟨id.remote, id.isn⟩ : SynPkt)
        · have hid2 : (⟨laddr, p.raddr, p.isn⟩ : ID) = id := by
            subst hid
            rw [← hl]
          have hg : goodSynFor is4 laddr id r = true := by
            unfold goodSynFor
            rw [hp, hid, decide_eq_true (by omega : minSize is4 ≤ r.n),
              decide_eq_true hl]
            simp
          show List.count id
            (if (⟨laddr, p.raddr, p.isn⟩ : ID) ∈ conns then
              sockitRun is4 laddr conns rest
            else (⟨laddr, p.raddr, p.isn⟩ : ID) ::
              sockitRun is4 laddr (⟨laddr, p.raddr, p.isn⟩ :: conns) rest) = _
          rw [if_neg (hid2 ▸ hmem)]
          rw [List.count_cons,
            sockitRun_count_zero is4 laddr id rest
              (⟨laddr, p.raddr, p.isn⟩ :: conns) (hid2 ▸ List.mem_cons_self _ _),
            List.any_cons, hg]
          simp [hid2]
        · have hg : goodSynFor is4 laddr id r = false := by
            unfold goodSynFor
            rw [hp]
            have : (ParseKind.v6 p = ParseKind.v6 ⟨id.remote, id.isn⟩) = False := by
              simp
              exact fun h => hid (by rw [h])
            simp [this]
          have hid2 : (⟨laddr, p.raddr, p.isn⟩ : ID) ≠ id := by
            intro h
            apply hid
            have h1 : p.raddr = id.remote := by
              have := congrArg ID.remote h
              simpa using this
            have h2 : p.isn = id.isn := by
              have := congrArg ID.isn h
              simpa using this
            cases p
            simp_all
          show List.count id
            (if (⟨laddr, p.raddr, p.isn⟩ : ID) ∈ conns then
              sockitRun is4 laddr conns rest
            else (⟨laddr, p.raddr, p.isn⟩ : ID) ::
              sockitRun is4 laddr (⟨laddr, p.raddr, p.isn⟩ :: conns) rest) = _
          by_cases hm : (⟨laddr, p.raddr, p.isn⟩ : ID) ∈ conns
          · rw [if_pos hm, ih conns hmem, List.any_cons, hg, Bool.false_or]
          · rw [if_neg hm, List.count_cons,
              ih (⟨laddr, p.raddr, p.isn⟩ :: conns)
                (fun h => (List.mem_cons.mp h).elim
                  (fun heq => hid2 heq.symm) hmem),
              List.any_cons, hg, Bool.false_or]
            simp [hid2]

theorem connsFind_set_self :
    ∀ (conns : List (AddrPort × Nat)) (r : AddrPort) (v : Nat),
      connsFind (connsSet conns r v) r = some v := by
  intro conns r v
  induction conns with
  | nil => simp [connsSet, connsFind]
  | cons kv rest ih =>
    obtain ⟨k, w⟩ := kv
    by_cases hk : k = r
    · subst hk
      simp [connsSet, connsFind]
    · simp only [connsSet, connsFind, if_neg hk]
      exact ih

theorem connsFind_set_ne {k r : AddrPort} (hne : k ≠ r) :
    ∀ (conns : List (AddrPort × Nat)) (v : Nat),
      connsFind (connsSet conns k v) r = connsFind conns r := by
  intro conns v
  induction conns with
  | nil => simp [connsSet, connsFind, hne]
  | cons kv rest ih =>
    obtain ⟨k2, w⟩ := kv
    by_cases hk : k2 = k
    · subst hk
      simp [connsSet, connsFind, hne]
    · simp only [connsSet, connsFind, if_neg hk]
      by_cases hk2 : k2 = r
      · simp [if_pos hk2]
      · simp only [if_neg hk2]
        exact ih

/-- A read below the minimum size is not a good SYN for the remote-keyed
registry either. -/
theorem goodSynForEth_false_short {is4 : Bool} {raddr : AddrPort} {isn : Nat}
    {r : RawRead} (hn : r.n < minSize is4) :
    goodSynForEth is4 raddr isn r = false := by
  unfold goodSynForEth
  rw [decide_eq_false (by omega : ¬ (minSize is4 ≤ r.n))]
  simp

theorem goodSynForEth_false_other {is4 : Bool} {raddr : AddrPort} {isn : Nat}
    {r : RawRead} (hp : r.parse = .other) :
    goodSynForEth is4 raddr isn r = false := by
  unfold goodSynForEth
  rw [hp]
  simp

theorem goodSynForEth_false_v4 {is4 : Bool} {raddr : AddrPort} {isn : Nat}
    {r : RawRead} {p : SynPkt} (hp : r.parse = .v4 p)
    (hpe : p ≠ (⟨raddr, isn⟩ : SynPkt)) :
    goodSynForEth is4 raddr isn r = false := by
  unfold goodSynForEth
  rw [hp]
  simp [hpe]

theorem goodSynForEth_false_v6 {is4 : Bool} {raddr : AddrPort} {isn : Nat}
    {r : RawRead} {p : SynPkt} (hp : r.parse = .v6 p)
    (hpe : p ≠ (⟨raddr, isn⟩ : SynPkt)) :
    goodSynForEth is4 raddr isn r = false := by
  unfold goodSynForEth
  rw [hp]
  simp [hpe]

/-- Once the remote-keyed registry maps `raddr` to `isn`, no later packet
of an ISN-consistent run is accepted for (raddr, isn). -/
theorem ethRun_count_zero (is4 : Bool) (raddr : AddrPort) (isn : Nat) :
    ∀ (reads : List RawRead) (conns : List (AddrPort × Nat)),
      connsFind conns raddr = some isn → synConsistent raddr isn reads →
      List.count (⟨raddr, isn⟩ : AddrPort × Nat) (ethRun is4 conns [] reads)
        = 0 := by
  intro reads
  induction reads with
  | nil => intro conns _ _; rfl
  | cons r rest ih =>
    intro conns hfind hcons
    have hconsr : readConsistent raddr isn r = true :=
      hcons r (List.mem_cons_self _ _)
    have hconsrest : synConsistent raddr isn rest :=
      fun x hx => hcons x (List.mem_cons_of_mem _ hx)
    by_cases hn : r.n < minSize is4
    · rw [ethRun, if_pos hn]
      exact ih conns hfind hconsrest
    · rw [ethRun, if_neg hn]
      cases hp : r.parse with
      | other =>
        show List.count _ (ethRun is4 conns [] rest) = 0
        exact ih conns hfind hconsrest
      | v4 p =>
        show List.count (⟨raddr, isn⟩ : AddrPort × Nat)
          (match connsFind conns p.raddr with
           | some old =>
             if old = p.isn then ethRun is4 conns [] rest
             else (p.raddr, p.isn) ::
               ethRun is4 (connsSet conns p.raddr p.isn) [] rest
           | none => (p.raddr, p.isn) ::
               ethRun is4 (connsSet conns p.raddr p.isn) [] rest) = 0
        by_cases hr : p.raddr = raddr
        · have hisn : p.isn = isn := by
            unfold readConsistent at hconsr
            rw [hp] at hconsr
            simp [hr] at hconsr
            exact hconsr
          rw [hr, hisn, hfind]
          show List.count (⟨raddr, isn⟩ : AddrPort × Nat)
            (if isn = isn then ethRun is4 conns [] rest
             else (raddr, isn) ::
               ethRun is4 (connsSet conns raddr isn) [] rest) = 0
          rw [if_pos rfl]
          exact ih conns hfind hconsrest
        · have hpairne : ((p.raddr, p.isn) : AddrPort × Nat) ≠ (raddr, isn) :=
            fun h => hr (congrArg Prod.fst h)
          cases hfc : connsFind conns p.raddr with
          | some old =>
            show List.count (⟨raddr, isn⟩ : AddrPort × Nat)
              (if old = p.isn then ethRun is4 conns [] rest
               else (p.raddr, p.isn) ::
                 ethRun is4 (connsSet conns p.raddr p.isn) [] rest) = 0
            by_cases hiso : old = p.isn
            · rw [if_pos hiso]
              exact ih conns hfind hconsrest
            · rw [if_neg hiso, List.count_cons,
                ih (connsSet conns p.raddr p.isn)
                  (by rw [connsFind_set_ne hr]; exact hfind) hconsrest]
              simp [hpairne]
          | none =>
            show List.count (⟨raddr, isn⟩ : AddrPort × Nat)
              ((p.raddr, p.isn) ::
                ethRun is4 (connsSet conns p.raddr p.isn) [] rest) = 0
            rw [List.count_cons,
              ih (connsSet conns p.raddr p.isn)
                (by rw [connsFind_set_ne hr]; exact hfind) hconsrest]
            simp [hpairne]
      | v6 p =>
        show List.count (⟨raddr, isn⟩ : AddrPort × Nat)
          (match connsFind conns p.raddr with
           | some old =>
             if old = p.isn then ethRun is4 conns [] rest
             else (p.raddr, p.isn) ::
               ethRun is4 (connsSet conns p.raddr p.isn) [] rest
           | none => (p.raddr, p.isn) ::
               ethRun is4 (connsSet conns p.raddr p.isn) [] rest) = 0
        by_cases hr : p.raddr = raddr
        · have hisn : p.isn = isn := by
            unfold readConsistent at hconsr
            rw [hp] at hconsr
            simp [hr] at hconsr
            exact hconsr
          rw [hr, hisn, hfind]
          show List.count (⟨raddr, isn⟩ : AddrPort × Nat)
            (if isn = isn then ethRun is4 conns [] rest
             else (raddr, isn) ::
               ethRun is4 (connsSet conns raddr isn) [] rest) = 0
          rw [if_pos rfl]
          exact ih conns hfind hconsrest
        · have hpairne : ((p.raddr, p.isn) : AddrPort × Nat) ≠ (raddr, isn) :=
            fun h => hr (congrArg Prod.fst h)
          cases hfc : connsFind conns p.raddr with
          | some old =>
            show List.count (⟨raddr, isn⟩ : AddrPort × Nat)
              (if old = p.isn then ethRun is4 conns [] rest
               else (p.raddr, p.isn) ::
                 ethRun is4 (connsSet conns p.raddr p.isn) [] rest) = 0
            by_cases hiso : old = p.isn
            · rw [if_pos hiso]
              exact ih conns hfind hconsrest
            · rw [if_neg hiso, List.count_cons,
                ih (connsSet conns p.raddr p.isn)
                  (by rw [connsFind_set_ne hr]; exact hfind) hconsrest]
              simp [hpairne]
          | none =>
            show List.count (⟨raddr, isn⟩ : AddrPort × Nat)
              ((p.raddr, p.isn) ::
                ethRun is4 (connsSet conns p.raddr p.isn) [] rest) = 0
            rw [List.count_cons,
              ih (connsSet conns p.raddr p.isn)
                (by rw [connsFind_set_ne hr]; exact hfind) hconsrest]
            simp [hpairne]

/-- Remote-keyed registry: starting from a state where `raddr` is unmapped,
an ISN-consistent run accepts (raddr, isn) exactly once when the stream
carries at least one good SYN for it, and never otherwise. -/
theorem ethRun_count_one (is4 : Bool) (raddr : AddrPort) (isn : Nat) :
    ∀ (reads : List RawRead) (conns : List (AddrPort × Nat)),
      connsFind conns raddr = none → synConsistent raddr isn reads →
      List.count (⟨raddr, isn⟩ : AddrPort × Nat) (ethRun is4 conns [] reads)
        = (if reads.any (goodSynForEth is4 raddr isn) then 1 else 0) := by
  intro reads
  induction reads with
  | nil => intro conns _ _; rfl
  | cons r rest ih =>
    intro conns hfind hcons
    have hconsr : readConsistent raddr isn r = true :=
      hcons r (List.mem_cons_self _ _)
    have hconsrest : synConsistent raddr isn rest :=
      fun x hx => hcons x (List.mem_cons_of_mem _ hx)
    by_cases hn : r.n < minSize is4
    · rw [ethRun, if_pos hn, ih conns hfind hconsrest, List.any_cons,
        goodSynForEth_false_short hn, Bool.false_or]
    · rw [ethRun, if_neg hn]
      cases hp : r.parse with
      | other =>
        show List.count _ (ethRun is4 conns [] rest) = _
        rw [ih conns hfind hconsrest, List.any_cons,
          goodSynForEth_false_other hp, Bool.false_or]
      | v4 p =>
        show List.count (⟨raddr, isn⟩ : AddrPort × Nat)
          (match connsFind conns p.raddr with
           | some old =>
             if old = p.isn then ethRun is4 conns [] rest
             else (p.raddr, p.isn) ::
               ethRun is4 (connsSet conns p.raddr p.isn) [] rest
           | none => (p.raddr, p.isn) ::
               ethRun is4 (connsSet conns p.raddr p.isn) [] rest)
          = (if (r :: rest).any (goodSynForEth is4 raddr isn) then 1 else 0)
        by_cases hr : p.raddr = raddr
        · have hisn : p.isn = isn := by
            unfold readConsistent at hconsr
            rw [hp] at hconsr
            simp [hr] at hconsr
            exact hconsr
          have hpe : p = (⟨raddr, isn⟩ : SynPkt) := by
            cases p
            simp_all
          have hg : goodSynForEth is4 raddr isn r = true := by
            unfold goodSynForEth
            rw [hp, hpe, decide_eq_true (by omega : minSize is4 ≤ r.n)]
            simp
          rw [hr, hisn, hfind, List.count_cons,
            ethRun_count_zero is4 raddr isn rest (connsSet conns raddr isn)
              (connsFind_set_self conns raddr isn) hconsrest,
            List.any_cons, hg]
          simp
        · have hpe : p ≠ (⟨raddr, isn⟩ : SynPkt) := by
            intro h
            exact hr (by rw [h])
          have hg : goodSynForEth is4 raddr isn r = false :=
            goodSynForEth_false_v4 hp hpe
          have hpairne : ((p.raddr, p.isn) : AddrPort × Nat) ≠ (raddr, isn) :=
            fun h => hr (congrArg Prod.fst h)
          cases hfc : connsFind conns p.raddr with
          | some old =>
            show List.count (⟨raddr, isn⟩ : AddrPort × Nat)
              (if old = p.isn then ethRun is4 conns [] rest
               else (p.raddr, p.isn) ::
                 ethRun is4 (connsSet conns p.raddr p.isn) [] rest)
              = (if (r :: rest).any (goodSynForEth is4 raddr isn) then 1 else 0)
            by_cases hiso : old = p.isn
            · rw [if_pos hiso, ih conns hfind hconsrest, List.any_cons, hg,
                Bool.false_or]
            · rw [if_neg hiso, List.count_cons,
                ih (connsSet conns p.raddr p.isn)
                  (by rw [connsFind_set_ne hr]; exact hfind) hconsrest,
                List.any_cons, hg, Bool.false_or]
              simp [hpairne]
          | none =>
            show List.count (⟨raddr, isn⟩ : AddrPort × Nat)
              ((p.raddr, p.isn) ::
                ethRun is4 (connsSet conns p.raddr p.isn) [] rest)
              = (if (r :: rest).any (goodSynForEth is4 raddr isn) then 1 else 0)
            rw [List.count_cons,
              ih (connsSet conns p.raddr p.isn)
                (by rw [connsFind_set_ne hr]; exact hfind) hconsrest,
              List.any_cons, hg, Bool.false_or]
            simp [hpairne]
      | v6 p =>
        show List.count (⟨raddr, isn⟩ : AddrPort × Nat)
          (match connsFind conns p.raddr with
           | some old =>
             if old = p.isn then ethRun is4 conns [] rest
             else (p.raddr, p.isn) ::
               ethRun is4 (connsSet conns p.raddr p.isn) [] rest
           | none => (p.raddr, p.isn) ::
               ethRun is4 (connsSet conns p.raddr p.isn) [] rest)
          = (if (r :: rest).any (goodSynForEth is4 raddr isn) then 1 else 0)
        by_cases hr : p.raddr = raddr
        · have hisn : p.isn = isn := by
            unfold readConsistent at hconsr
            rw [hp] at hconsr
            simp [hr] at hconsr
            exact hconsr
          have hpe : p = (⟨raddr, isn⟩ : SynPkt) := by
            cases p
            simp_all
          have hg : goodSynForEth is4 raddr isn r = true := by
            unfold goodSynForEth
            rw [hp, hpe, decide_eq_true (by omega : minSize is4 ≤ r.n)]
            simp
          rw [hr, hisn, hfind, List.count_cons,
            ethRun_count_zero is4 raddr isn rest (connsSet conns raddr isn)
              (connsFind_set_self conns raddr isn) hconsrest,
            List.any_cons, hg]
          simp
        · have hpe : p ≠ (⟨raddr, isn⟩ : SynPkt) := by
            intro h
            exact hr (by rw [h])
          have hg : goodSynForEth is4 raddr isn r = false :=
            goodSynForEth_false_v6 hp hpe
          have hpairne : ((p.raddr, p.isn) : AddrPort × Nat) ≠ (raddr, isn) :=
            fun h => hr (congrArg Prod.fst h)
          cases hfc : connsFind conns p.raddr with
          | some old =>
            show List.count (⟨raddr, isn⟩ : AddrPort × Nat)
              (if old = p.isn then ethRun is4 conns [] rest
               else (p.raddr, p.isn) ::
                 ethRun is4 (connsSet conns p.raddr p.isn) [] rest)
              = (if (r :: rest).any (goodSynForEth is4 raddr isn) then 1 else 0)
            by_cases hiso : old = p.isn
            · rw [if_pos hiso, ih conns hfind hconsrest, List.any_cons, hg,
                Bool.false_or]
            · rw [if_neg hiso, List.count_cons,
                ih (connsSet conns p.raddr p.isn)
                  (by rw [connsFind_set_ne hr]; exact hfind) hconsrest,
                List.any_cons, hg, Bool.false_or]
              simp [hpairne]
          | none =>
            show List.count (⟨raddr, isn⟩ : AddrPort × Nat)
              ((p.raddr, p.isn) ::
                ethRun is4 (connsSet conns p.raddr p.isn) [] rest)
              = (if (r :: rest).any (goodSynForEth is4 raddr isn) then 1 else 0)
            rw [List.count_cons,
              ih (connsSet conns p.raddr p.isn)
                (by rw [connsFind_set_ne hr]; exact hfind) hconsrest,
              List.any_cons, hg, Bool.false_or]
            simp [hpairne]

/-- The per-packet fold `sockitRun` is exactly the iteration of
Listener.Accept: one Accept call resolves to an acceptance, an error, or
blocking, and the fold continues from its returned state and remainder. -/
theorem sockitRun_is_iterated_accept (is4 : Bool) (laddr : AddrPort) :
    ∀ (reads : List RawRead) (conns : List ID),
      sockitRun is4 laddr conns reads =
        (match sockitAccept is4 laddr conns reads with
         | .accepted id conns2 rest => id :: sockitRun is4 laddr conns2 rest
         | .error _ rest => sockitRun is4 laddr conns rest
         | .blocked => []) := by
  intro reads
  induction reads with
  | nil => intro conns; rfl
  | cons r rest ih =>
    intro conns
    by_cases hn : r.n < minSize is4
    · rw [sockitRun, if_pos hn, sockitAccept, if_pos hn]
    · rw [sockitRun, if_neg hn, sockitAccept, if_neg hn]
      cases hp : r.parse with
      | other => exact ih conns
      | v4 p =>
        show (if (⟨laddr, p.raddr, p.isn⟩ : ID) ∈ conns then
                sockitRun is4 laddr conns rest
              else (⟨laddr, p.raddr, p.isn⟩ : ID) ::
                sockitRun is4 laddr (⟨laddr, p.raddr, p.isn⟩ :: conns) rest)
          = (match (if (⟨laddr, p.raddr, p.isn⟩ : ID) ∈ conns then
                sockitAccept is4 laddr conns rest
              else .accepted ⟨laddr, p.raddr, p.isn⟩
                (⟨laddr, p.raddr, p.isn⟩ :: conns) rest) with
             | .accepted id conns2 rest2 => id :: sockitRun is4 laddr conns2 rest2
             | .error _ rest2 => sockitRun is4 laddr conns rest2
             | .blocked => [])
        by_cases hm : (⟨laddr, p.raddr, p.isn⟩ : ID) ∈ conns
        · rw [if_pos hm, if_pos hm]
          exact ih conns
        · rw [if_neg hm, if_neg hm]
      | v6 p =>
        show (if (⟨laddr, p.raddr, p.isn⟩ : ID) ∈ conns then
                sockitRun is4 laddr conns rest
              else (⟨laddr, p.raddr, p.isn⟩ : ID) ::
                sockitRun is4 laddr (⟨laddr, p.raddr, p.isn⟩ :: conns) rest)
          = (match (if (⟨laddr, p.raddr, p.isn⟩ : ID) ∈ conns then
                sockitAccept is4 laddr conns rest
              else .accepted ⟨laddr, p.raddr, p.isn⟩
                (⟨laddr, p.raddr, p.isn⟩ :: conns) rest) with
             | .accepted id conns2 rest2 => id :: sockitRun is4 laddr conns2 rest2
             | .error _ rest2 => sockitRun is4 laddr conns rest2
             | .blocked => [])
        by_cases hm : (⟨laddr, p.raddr, p.isn⟩ : ID) ∈ conns
        · rw [if_pos hm, if_pos hm]
          exact ih conns
        · rw [if_neg hm, if_neg hm]

/-- The per-packet fold `ethRun` is exactly the iteration of
listenerEth.Accept. -/
theorem ethRun_is_iterated_accept (is4 : Bool) :
    ∀ (reads : List RawRead) (conns : List (AddrPort × Nat))
      (queue : List ClosedInfo),
      ethRun is4 conns queue reads =
        (match ethAccept is4 conns queue reads with
         | .accepted ra i conns2 queue2 rest =>
             (ra, i) :: ethRun is4 conns2 queue2 rest
         | .error _ conns2 queue2 rest2 => ethRun is4 conns2 queue2 rest2
         | .blocked => []
         | .panic => []) := by
  intro reads
  induction reads with
  | nil => intro conns queue; rfl
  | cons r rest ih =>
    intro conns queue
    by_cases hn : r.n < minSize is4
    · rw [ethRun, if_pos hn, ethAccept, if_pos hn]
    · rw [ethRun, if_neg hn, ethAccept, if_neg hn]
      cases hpu : purgeDeleted r.t conns queue with
      | none => rfl
      | some cq =>
        obtain ⟨conns1, queue1⟩ := cq
        cases hp : r.parse with
        | other => exact ih conns1 queue1
        | v4 p =>
          show (match connsFind conns1 p.raddr with
               | some old =>
                 if old = p.isn then ethRun is4 conns1 queue1 rest
                 else (p.raddr, p.isn) ::
                   ethRun is4 (connsSet conns1 p.raddr p.isn) queue1 rest
               | none => (p.raddr, p.isn) ::
                   ethRun is4 (connsSet conns1 p.raddr p.isn) queue1 rest)
            = (match (match connsFind conns1 p.raddr with
                 | some old =>
                   if old = p.isn then ethAccept is4 conns1 queue1 rest
                   else .accepted p.raddr p.isn (connsSet conns1 p.raddr p.isn)
                     queue1 rest
                 | none => .accepted p.raddr p.isn (connsSet conns1 p.raddr p.isn)
                     queue1 rest) with
               | .accepted ra i conns2 queue2 rest2 =>
                   (ra, i) :: ethRun is4 conns2 queue2 rest2
               | .error _ conns3 queue3 rest2 => ethRun is4 conns3 queue3 rest2
               | .blocked => []
               | .panic => [])
          cases hfc : connsFind conns1 p.raddr with
          | some old =>
            by_cases hiso : old = p.isn
            · show (if old = p.isn then ethRun is4 conns1 queue1 rest else _)
                = (match (if old = p.isn then ethAccept is4 conns1 queue1 rest
                    else _) with
                   | .accepted ra i conns2 queue2 rest2 =>
                       (ra, i) :: ethRun is4 conns2 queue2 rest2
                   | .error _ conns3 queue3 rest2 => ethRun is4 conns3 queue3 rest2
                   | .blocked => []
                   | .panic => [])
              rw [if_pos hiso, if_pos hiso]
              exact ih conns1 queue1
            · show (if old = p.isn then ethRun is4 conns1 queue1 rest
                    else (p.raddr, p.isn) ::
                      ethRun is4 (connsSet conns1 p.raddr p.isn) queue1 rest)
                = (match (if old = p.isn then ethAccept is4 conns1 queue1 rest
                    else .accepted p.raddr p.isn (connsSet conns1 p.raddr p.isn)
                      queue1 rest) with
                   | .accepted ra i conns2 queue2 rest2 =>
                       (ra, i) :: ethRun is4 conns2 queue2 rest2
                   | .error _ conns3 queue3 rest2 => ethRun is4 conns3 queue3 rest2
                   | .blocked => []
                   | .panic => [])
              rw [if_neg hiso, if_neg hiso]
          | none => rfl
        | v6 p =>
          show (match connsFind conns1 p.raddr with
               | some old =>
                 if old = p.isn then ethRun is4 conns1 queue1 rest
                 else (p.raddr, p.isn) ::
                   ethRun is4 (connsSet conns1 p.raddr p.isn) queue1 rest
               | none => (p.raddr, p.isn) ::
                   ethRun is4 (connsSet conns1 p.raddr p.isn) queue1 rest)
            = (match (match connsFind conns1 p.raddr with
                 | some old =>
                   if old = p.isn then ethAccept is4 conns1 queue1 rest
                   else .accepted p.raddr p.isn (connsSet conns1 p.raddr p.isn)
                     queue1 rest
                 | none => .accepted p.raddr p.isn (connsSet conns1 p.raddr p.isn)
                     queue1 rest) with
               | .accepted ra i conns2 queue2 rest2 =>
                   (ra, i) :: ethRun is4 conns2 queue2 rest2
               | .error _ conns3 queue3 rest2 => ethRun is4 conns3 queue3 rest2
               | .blocked => []
               | .panic => [])
          cases hfc : connsFind conns1 p.raddr with
          | some old =>
            by_cases hiso : old = p.isn
            · show (if old = p.isn then ethRun is4 conns1 queue1 rest else _)
                = (match (if old = p.isn then ethAccept is4 conns1 queue1 rest
                    else _) with
                   | .accepted ra i conns2 queue2 rest2 =>
                       (ra, i) :: ethRun is4 conns2 queue2 rest2
                   | .error _ conns3 queue3 rest2 => ethRun is4 conns3 queue3 rest2
                   | .blocked => []
                   | .panic => [])
              rw [if_pos hiso, if_pos hiso]
              exact ih conns1 queue1
            · show (if old = p.isn then ethRun is4 conns1 queue1 rest
                    else (p.raddr, p.isn) ::
                      ethRun is4 (connsSet conns1 p.raddr p.isn) queue1 rest)
                = (match (if old = p.isn then ethAccept is4 conns1 queue1 rest
                    else .accepted p.raddr p.isn (connsSet conns1 p.raddr p.isn)
                      queue1 rest) with
                   | .accepted ra i conns2 queue2 rest2 =>
                       (ra, i) :: ethRun is4 conns2 queue2 rest2
                   | .error _ conns3 queue3 rest2 => ethRun is4 conns3 queue3 rest2
                   | .blocked => []
                   | .panic => [])
              rw [if_neg hiso, if_neg hiso]
          | none => rfl

/-- C1, amended: on the identity-keyed registry, any stream read before the
flow closes accepts an identity exactly once (once when a good SYN for it is
present, never when not — in particular two SYNs with the same (remote, ISN)
yield exactly one accepted flow, the duplicate being discarded). The
remote-keyed registry guarantees this only when no SYN from the same remote
with a different ISN is interleaved (the `synConsistent` hypothesis): such a
SYN re-keys the remote entry and the original identity can be accepted a
second time, as `C1_counterexample` shows. -/
theorem C1_exactly_one_accept_amended
    (is4 : Bool) (laddr : AddrPort) (id : ID) (conns : List ID)
    (reads : List RawRead) (hl : id.local_ = laddr) (hc : id ∉ conns)
    (conns2 : List (AddrPort × Nat)) (raddr : AddrPort) (isn : Nat)
    (reads2 : List RawRead) (hfind : connsFind conns2 raddr = none)
    (hcons : synConsistent raddr isn reads2) :
    List.count id (sockitRun is4 laddr conns reads)
      = (if reads.any (goodSynFor is4 laddr id) then 1 else 0) ∧
    List.count (⟨raddr, isn⟩ : AddrPort × Nat) (ethRun is4 conns2 [] reads2)
      = (if reads2.any (goodSynForEth is4 raddr isn) then 1 else 0) :=
  ⟨sockitRun_count_one is4 laddr id hl reads conns hc,
   ethRun_count_one is4 raddr isn reads2 conns2 hfind hcons⟩

/-- Witness for C1 at two identical SYNs for identity (⟨2,3⟩, ISN 9) on
both registries: exactly one acceptance each. -/
theorem C1_witness :
    ((⟨⟨1, 80⟩, ⟨2, 3⟩, 9⟩ : ID) ∉ ([] : List ID)) ∧
    synConsistent ⟨2, 3⟩ 9
      [⟨60, 0, .v4 ⟨⟨2, 3⟩, 9⟩⟩, ⟨60, 0, .v4 ⟨⟨2, 3⟩, 9⟩⟩] ∧
    List.count (⟨⟨1, 80⟩, ⟨2, 3⟩, 9⟩ : ID)
      (sockitRun true ⟨1, 80⟩ []
        [⟨60, 0, .v4 ⟨⟨2, 3⟩, 9⟩⟩, ⟨60, 0, .v4 ⟨⟨2, 3⟩, 9⟩⟩]) = 1 ∧
    List.count (⟨⟨2, 3⟩, 9⟩ : AddrPort × Nat)
      (ethRun true [] []
        [⟨60, 0, .v4 ⟨⟨2, 3⟩, 9⟩⟩, ⟨60, 0, .v4 ⟨⟨2, 3⟩, 9⟩⟩]) = 1 :=
  ⟨by decide, by decide,
   (C1_exactly_one_accept_amended true ⟨1, 80⟩ ⟨⟨1, 80⟩, ⟨2, 3⟩, 9⟩ []
      [⟨60, 0, .v4 ⟨⟨2, 3⟩, 9⟩⟩, ⟨60, 0, .v4 ⟨⟨2, 3⟩, 9⟩⟩] rfl (by decide)
      [] ⟨2, 3⟩ 9 [⟨60, 0, .v4 ⟨⟨2, 3⟩, 9⟩⟩, ⟨60, 0, .v4 ⟨⟨2, 3⟩, 9⟩⟩] rfl
      (by decide)).1.trans (by decide),
   (C1_exactly_one_accept_amended true ⟨1, 80⟩ ⟨⟨1, 80⟩, ⟨2, 3⟩, 9⟩ []
      [⟨60, 0, .v4 ⟨⟨2, 3⟩, 9⟩⟩, ⟨60, 0, .v4 ⟨⟨2, 3⟩, 9⟩⟩] rfl (by decide)
      [] ⟨2, 3⟩ 9 [⟨60, 0, .v4 ⟨⟨2, 3⟩, 9⟩⟩, ⟨60, 0, .v4 ⟨⟨2, 3⟩, 9⟩⟩] rfl
      (by decide)).2.trans (by decide)⟩

/-- purgeDeleted on a non-empty queue enters its loop at the last index. -/
theorem purgeDeleted_nonempty (now : Nat) (conns : List (AddrPort × Nat))
    (queue : List ClosedInfo) (h : queue ≠ []) :
    purgeDeleted now conns queue
      = purgeLoop now conns queue (queue.length - 1) := by
  cases queue with
  | nil => exact absurd rfl h
  | cons a t => rfl

/-- The purge loop breaks immediately when the entry at its current index
is still within the grace period. -/
theorem purgeLoop_break (now : Nat) (conns : List (AddrPort × Nat))
    (queue : List ClosedInfo) (i : Nat) (c : ClosedInfo)
    (hg : queue.get? i = some c) (h : now - c.deleteAt ≤ graceSeconds) :
    purgeLoop now conns queue i = some (conns, queue) := by
  have hne : ¬ (graceSeconds < now - c.deleteAt) := by omega
  rw [purgeLoop, hg]
  exact if_neg hne

/-- The code's prune is a no-op whenever the entry at the back of the
retired queue is within the grace period. -/
theorem purge_fresh_back (now : Nat) (conns : List (AddrPort × Nat))
    (q : List ClosedInfo) (c : ClosedInfo)
    (h : now - c.deleteAt ≤ graceSeconds) :
    purgeDeleted now conns (q ++ [c]) = some (conns, q ++ [c]) := by
  have hg : (q ++ [c]).get? ((q ++ [c]).length - 1) = some c := by
    have hlen : (q ++ [c]).length - 1 = q.length := by simp
    rw [hlen]
    exact List.get?_concat_length q c
  rw [purgeDeleted_nonempty now conns (q ++ [c]) (by simp)]
  exact purgeLoop_break now conns (q ++ [c]) ((q ++ [c]).length - 1) c hg h

/-- In a timestamp-monotone queue the front entry is the oldest. -/
theorem qMono_head_oldest (queue : List ClosedInfo) (hq : qMono queue)
    (f : ClosedInfo) (hf : queue.head? = some f) :
    ∀ e ∈ queue, f.deleteAt ≤ e.deleteAt := by
  cases queue with
  | nil => simp at hf
  | cons a t =>
    have hfa : f = a := by
      simp only [List.head?_cons, Option.some.injEq] at hf
      exact hf.symm
    subst hfa
    intro e he
    rcases List.mem_cons.mp he with rfl | ht
    · exact Nat.le_refl _
    · exact (List.pairwise_cons.mp hq).1 e ht

/-- C6, amended: every close notification appends (identity, timestamp) at
the tail, and the sort run on each insert compares an entry with itself, so
the queue keeps insertion order: with non-decreasing timestamps the front
still holds the oldest entry. Pruning, however, works from the back: it
removes nothing while the entry at the back of the queue is within the
grace period, even if the front has expired. -/
theorem C6_retired_queue_amended (q : List ClosedInfo) (raddr : AddrPort)
    (isn now : Nat) (conns : List (AddrPort × Nat)) (c : ClosedInfo)
    (hmono : qMono q) (hlast : ∀ e ∈ q, e.deleteAt ≤ now)
    (hfresh : now - c.deleteAt ≤ graceSeconds) :
    deleteConn q raddr isn now = q ++ [⟨now, raddr, isn⟩] ∧
    qMono (deleteConn q raddr isn now) ∧
    (∀ f, (deleteConn q raddr isn now).head? = some f →
      ∀ e ∈ deleteConn q raddr isn now, f.deleteAt ≤ e.deleteAt) ∧
    purgeDeleted now conns (q ++ [c]) = some (conns, q ++ [c]) := by
  have happ : deleteConn q raddr isn now = q ++ [⟨now, raddr, isn⟩] := rfl
  have hmono2 : qMono (deleteConn q raddr isn now) := by
    rw [happ]
    unfold qMono
    rw [List.pairwise_append]
    refine ⟨hmono, List.pairwise_singleton _ _, ?_⟩
    intro a ha b hb
    rcases List.mem_singleton.mp hb with rfl
    exact hlast a ha
  refine ⟨happ, hmono2, ?_, purge_fresh_back now conns q c hfresh⟩
  intro f hf e he
  exact qMono_head_oldest (deleteConn q raddr isn now) hmono2 f hf e he

/-- Witness for C6 at a concrete queue, close notification and prune
moment. -/
theorem C6_witness :
    qMono [⟨5, ⟨2, 3⟩, 7⟩] ∧
    (deleteConn [⟨5, ⟨2, 3⟩, 7⟩] ⟨4, 5⟩ 8 50
        = [⟨5, ⟨2, 3⟩, 7⟩, ⟨50, ⟨4, 5⟩, 8⟩] ∧
      purgeDeleted 50 [] ([⟨5, ⟨2, 3⟩, 7⟩] ++ [⟨10, ⟨6, 7⟩, 9⟩])
        = some ([], [⟨5, ⟨2, 3⟩, 7⟩] ++ [⟨10, ⟨6, 7⟩, 9⟩])) :=
  ⟨by decide,
   (C6_retired_queue_amended [⟨5, ⟨2, 3⟩, 7⟩] ⟨4, 5⟩ 8 50 [] ⟨10, ⟨6, 7⟩, 9⟩
      (by decide) (by decide) (by decide)).1,
   (C6_retired_queue_amended [⟨5, ⟨2, 3⟩, 7⟩] ⟨4, 5⟩ 8 50 [] ⟨10, ⟨6, 7⟩, 9⟩
      (by decide) (by decide) (by decide)).2.2.2⟩

/-- Witness for C9: a 40-byte IPv4 packet (header length 20) to port 80
whose flags byte is 0x12 — a SYN-ACK, SYN plus ACK — passes the filter. -/
theorem C9_witness :
    Nat.land 18 2 = 2 ∧
    runSynFilter 80
      [69, 0, 0, 0, 0, 0, 0, 0, 0, 0, 0, 0, 0, 0, 0, 0, 0, 0, 0, 0,
       0, 0, 0, 80, 0, 0, 0, 0, 0, 0, 0, 0, 0, 18, 0, 0, 0, 0, 0, 0]
      = some 65535 :=
  ⟨by decide,
   C9_syn_filter_accepts_any_syn _ 80 20 69 0 80 18 rfl
     (Or.inl ⟨by decide, by decide⟩) rfl rfl (by decide) rfl (by decide)⟩

end Sockit
